import Mathlib

/-!
Verification of the client-side search/ranking layer (`useSearch`) and the
upload pipeline (`useFirebaseUpload`) of the jdx_project_10 repository.

Strings are modelled as `List Char`; JavaScript machine numbers that carry
fractional values (timestamps in milliseconds, fractional day counts,
relevance scores) are modelled as `ℚ`.  JavaScript truthiness of optional
string fields (`undefined` and `""` are falsy) is made explicit through the
`jsOr*` / `truthyStr` helpers.  Fields that may be absent on a raw document
(`item.title?.…` optional chaining in the source) are modelled as `Option`.
-/

namespace Jdx

/-- Lower-case a string character by character (model of `String.prototype.toLowerCase`). -/
def lowerList (s : List Char) : List Char := s.map Char.toLower

/-- Model of `String.prototype.trim`: drop whitespace from both ends. -/
def jsTrim (s : List Char) : List Char :=
  ((s.dropWhile Char.isWhitespace).reverse.dropWhile Char.isWhitespace).reverse

/-- JavaScript truthiness of an optional string: `undefined` and `""` are falsy. -/
def truthyStr (o : Option (List Char)) : Bool :=
  match o with
  | some s => !s.isEmpty
  | none => false

/-- Model of `a || b` for an optional string `a`: `undefined` and `""` fall through. -/
def jsOrStr (o : Option (List Char)) (dflt : List Char) : List Char :=
  match o with
  | some s => if s.isEmpty then dflt else s
  | none => dflt

/-- Model of `a || b` for an optional array `a`: arrays are always truthy in JavaScript,
so a present array (even the empty one) wins. -/
def jsOrArr (o : Option (List (List Char))) (dflt : List (List Char)) : List (List Char) :=
  match o with
  | some l => l
  | none => dflt

/-- Model of `a || b` for an optional number `a`: `undefined` and `0` fall through. -/
def jsOrNat (o : Option Nat) (dflt : Nat) : Nat :=
  match o with
  | some n => if n = 0 then dflt else n
  | none => dflt

/-- Model of `hay.includes(needle)` on already-lower-cased data: substring test. -/
def strIncludes (hay needle : List Char) : Bool := decide (needle <:+: hay)

/-- Model of `o?.toLowerCase().includes(q)` for an optional string field `o`
(absent field: the optional chain yields `undefined`, the condition is falsy). -/
def optLowerContains (o : Option (List Char)) (q : List Char) : Bool :=
  match o with
  | some s => strIncludes (lowerList s) q
  | none => false

/-- Model of `o?.toLowerCase().startsWith(q)` for an optional string field `o`. -/
def optLowerStarts (o : Option (List Char)) (q : List Char) : Bool :=
  match o with
  | some s => q.isPrefixOf (lowerList s)
  | none => false

/-- Model of `o?.some(x => x.toLowerCase().includes(q))` for an optional string-array field `o`. -/
def anyLowerContains (o : Option (List (List Char))) (q : List Char) : Bool :=
  match o with
  | some l => l.any (fun s => strIncludes (lowerList s) q)
  | none => false

/-- Raw document data as read from the store (`doc.data()`), with every field that the
source accesses through optional chaining or `||` / `??` defaults modelled as `Option`.
`createdAtMs` is the creation timestamp in milliseconds (the source calls
`createdAt.toDate().getTime()` unconditionally). -/
structure RawData where
  title : Option (List Char)
  description : Option (List Char)
  content : Option (List Char)
  text : Option (List Char)
  location : Option (List Char)
  tags : Option (List (List Char))
  persons : Option (List (List Char))
  authorId : Option (List Char)
  authorName : Option (List Char)
  userEmail : Option (List Char)
  urls : Option (List (List Char))
  imageUrls : Option (List (List Char))
  isPublic : Option Bool
  createdAtMs : ℚ
  updatedAtMs : Option ℚ
deriving DecidableEq

/-- A document snapshot returned by the store: id plus raw data. -/
structure DocSnap where
  id : List Char
  data : RawData
deriving DecidableEq

/-- Relevance scorer, embedded from `calculateScore` in `useSearch`.
`now` is the current time in milliseconds (`Date.now()`).
Returns 0 for a blank query; otherwise accumulates additive bonuses for
case-insensitive substring matches in title (+10, +5 more for a prefix match),
description (+5), content (+3), tags (+7), location (+4), persons (+4), and a
recency bonus `max 0 (2 - ageInDays / 15)` when the document is under 30 days old. -/
def calculateScore (now : ℚ) (item : RawData) (searchQueryParam : List Char) : ℚ :=
  if (jsTrim searchQueryParam).isEmpty then 0
  else
    let searchQuery := lowerList searchQueryParam
    let s1 : ℚ :=
      if optLowerContains item.title searchQuery then
        10 + (if optLowerStarts item.title searchQuery then 5 else 0)
      else 0
    let s2 : ℚ := if optLowerContains item.description searchQuery then 5 else 0
    let s3 : ℚ := if optLowerContains item.content searchQuery then 3 else 0
    let s4 : ℚ := if anyLowerContains item.tags searchQuery then 7 else 0
    let s5 : ℚ := if optLowerContains item.location searchQuery then 4 else 0
    let s6 : ℚ := if anyLowerContains item.persons searchQuery then 4 else 0
    let daysSinceCreated : ℚ := (now - item.createdAtMs) / (1000 * 60 * 60 * 24)
    let s7 : ℚ := if daysSinceCreated < 30 then max 0 (2 - daysSinceCreated / 15) else 0
    s1 + s2 + s3 + s4 + s5 + s6 + s7

/-- The age of a document in (fractional) days at time `now`, as computed by the source. -/
def ageInDays (now : ℚ) (item : RawData) : ℚ :=
  (now - item.createdAtMs) / (1000 * 60 * 60 * 24)

/-- The opening highlight marker emitted by `highlightText`. -/
def markOpen : List Char := "<mark class=\"bg-yellow-200 px-1 rounded\">".toList

/-- The closing highlight marker emitted by `highlightText`. -/
def markClose : List Char := "</mark>".toList

/-- Core of `highlightText`: the semantics of
`text.replace(new RegExp(escapedQuery, 'gi'), '<mark …>$1</mark>')`.
Because every regex metacharacter of the query is escaped by the source
(`searchQuery.replace(/[.*+?^${}()|[\]\\]/g, '\\$&')`), the pattern matches the
literal query text case-insensitively; the global replace wraps each
non-overlapping occurrence, scanning left to right, and `$1` re-emits the
matched characters of `text` (original casing).  The recursion consumes
`q.length` characters at a match (`rest.drop (q.length - 1)` after taking the
head); `highlightText` only calls this with a non-empty `q`. -/
def replaceAllCI (q : List Char) : List Char → List Char
  | [] => []
  | c :: rest =>
    if (lowerList q).isPrefixOf (lowerList (c :: rest)) then
      markOpen ++ (c :: rest).take q.length ++ markClose ++
        replaceAllCI q (rest.drop (q.length - 1))
    else
      c :: replaceAllCI q rest
termination_by l => l.length
decreasing_by
  · simp [List.length_drop]
    omega
  · simp

/-- Embedding of `highlightText` from `useSearch`: identity on a blank query,
otherwise wrap every non-overlapping case-insensitive occurrence of the literal
query in the highlight marker. -/
def highlightText (text searchQuery : List Char) : List Char :=
  if (jsTrim searchQuery).isEmpty then text
  else replaceAllCI searchQuery text

/-- The match/non-match decomposition computed by the same scan as `replaceAllCI`:
a `(true, s)` piece is a wrapped match (characters taken from the text),
a `(false, s)` piece is an unmatched single character. -/
def highlightPieces (q : List Char) : List Char → List (Bool × List Char)
  | [] => []
  | c :: rest =>
    if (lowerList q).isPrefixOf (lowerList (c :: rest)) then
      (true, (c :: rest).take q.length) :: highlightPieces q (rest.drop (q.length - 1))
    else
      (false, [c]) :: highlightPieces q rest
termination_by l => l.length
decreasing_by
  · simp [List.length_drop]
    omega
  · simp

/-- Render one decomposition piece: matches are wrapped in the markers. -/
def renderPiece (p : Bool × List Char) : List Char :=
  if p.1 then markOpen ++ p.2 ++ markClose else p.2

/-- Render a whole decomposition. -/
def renderPieces (ps : List (Bool × List Char)) : List Char :=
  (ps.map renderPiece).flatten

/-- The structured filter value (`SearchFilters` interface). All fields are optional
on the TypeScript side. `dateRange` carries start/end times in milliseconds;
`sortBy` / `sortOrder` carry the literal field-name / direction strings. -/
structure SearchFilters where
  searchQuery : Option (List Char)
  tags : Option (List (List Char))
  author : Option (List Char)
  dateRange : Option (ℚ × ℚ)
  isPublic : Option Bool
  hasImages : Option Bool
  sortBy : Option String
  sortOrder : Option String
  limit : Option Nat
deriving DecidableEq

/-- A value carried by a store-query constraint. -/
inductive FieldValue where
  | boolV (b : Bool)
  | strV (s : List Char)
  | strListV (l : List (List Char))
  | timeV (t : ℚ)
  | emptyArr
deriving DecidableEq

/-- A store-query constraint, as produced by `buildQuery`.
`whereC field op v` models `where(field, op, v)`; `orderByC` models
`orderBy(field, dir)`; `startAfterC` models `startAfter(cursor)`;
`limitC` models `limit(n)`.  The store evaluates the list conjunctively. -/
inductive QC where
  | whereC (field : String) (op : String) (v : FieldValue)
  | orderByC (field : String) (dir : String)
  | startAfterC (cursor : DocSnap)
  | limitC (n : Nat)
deriving DecidableEq

/-- Embedding of `buildQuery` from `useSearch`: the ordered constraint list built from
a filters value, the continuation flag, and the session's pagination cursor
(`lastDoc`).  Conditions mirror the JavaScript truthiness tests of the source
(`if (filters.searchQuery)`, `filters.tags && filters.tags.length > 0`, …,
`filters.isPublic !== undefined`, `filters.limit || 20`). -/
def buildQuery (filters : SearchFilters) (isLoadMore : Bool) (lastDoc : Option DocSnap) :
    List QC :=
  (if truthyStr filters.searchQuery then [QC.whereC "isPublic" "==" (.boolV true)] else [])
  ++ (match filters.tags with
      | some ts => if 0 < ts.length then
          [QC.whereC "tags" "array-contains-any" (.strListV ts)] else []
      | none => [])
  ++ (match filters.author with
      | some a => if a.isEmpty then [] else [QC.whereC "authorId" "==" (.strV a)]
      | none => [])
  ++ (match filters.dateRange with
      | some r => [QC.whereC "createdAt" ">=" (.timeV r.1),
                   QC.whereC "createdAt" "<=" (.timeV r.2)]
      | none => [])
  ++ (match filters.isPublic with
      | some b => [QC.whereC "isPublic" "==" (.boolV b)]
      | none => [])
  ++ (if filters.hasImages = some true then [QC.whereC "imageUrls" "!=" .emptyArr] else [])
  ++ [QC.orderByC (filters.sortBy.getD "createdAt") (filters.sortOrder.getD "desc")]
  ++ (match isLoadMore, lastDoc with
      | true, some d => [QC.startAfterC d]
      | _, _ => [])
  ++ [QC.limitC (jsOrNat filters.limit 20)]

/-- Modelled from the spec: the constraint list as the specification describes it
(§4.1 of the spec / claim C4), for refinement comparison with `buildQuery`.
The spec words its final item as "a limit constraint equal to `filters.limit`
(default 20)", i.e. the default applies when the field is absent; presence of a
free-text/author value means a non-empty string (the data model has no empty
query/author). All other items coincide with the source's conditions. -/
def specBuildQuery (filters : SearchFilters) (isLoadMore : Bool) (lastDoc : Option DocSnap) :
    List QC :=
  (if truthyStr filters.searchQuery then [QC.whereC "isPublic" "==" (.boolV true)] else [])
  ++ (match filters.tags with
      | some ts => if 0 < ts.length then
          [QC.whereC "tags" "array-contains-any" (.strListV ts)] else []
      | none => [])
  ++ (match filters.author with
      | some a => if a.isEmpty then [] else [QC.whereC "authorId" "==" (.strV a)]
      | none => [])
  ++ (match filters.dateRange with
      | some r => [QC.whereC "createdAt" ">=" (.timeV r.1),
                   QC.whereC "createdAt" "<=" (.timeV r.2)]
      | none => [])
  ++ (match filters.isPublic with
      | some b => [QC.whereC "isPublic" "==" (.boolV b)]
      | none => [])
  ++ (if filters.hasImages = some true then [QC.whereC "imageUrls" "!=" .emptyArr] else [])
  ++ [QC.orderByC (filters.sortBy.getD "createdAt") (filters.sortOrder.getD "desc")]
  ++ (match isLoadMore, lastDoc with
      | true, some d => [QC.startAfterC d]
      | _, _ => [])
  ++ [QC.limitC (filters.limit.getD 20)]

/-- A search result as assembled by `search` from a document snapshot. -/
structure SearchResult where
  id : List Char
  title : List Char
  description : List Char
  content : List Char
  tags : List (List Char)
  authorId : List Char
  authorName : List Char
  createdAt : ℚ
  updatedAt : Option ℚ
  isPublic : Bool
  imageUrls : List (List Char)
  location : Option (List Char)
  persons : Option (List (List Char))
  score : Option ℚ
  highlightedTitle : Option (List Char)
  highlightedContent : Option (List Char)
deriving DecidableEq

/-- A log entry written through `secureLogger` by `search`. -/
inductive LogEvent where
  | searchCompleted (searchQuery : Option (List Char)) (resultsCount : Nat) (isLoadMore : Bool)
  | searchFailed
deriving DecidableEq

/-- The observable state owned by the `useSearch` session.  `storage` models the
`jdx_recent_searches` entry of `localStorage` (`none` = key absent). -/
structure SessionState where
  results : List SearchResult
  isSearching : Bool
  hasMore : Bool
  lastDoc : Option DocSnap
  recentSearches : List (List Char)
  storage : Option (List (List Char))
  logs : List LogEvent
deriving DecidableEq

/-- Embedding of `saveRecentSearch`: no-op on a blank query, otherwise prepend the
query, drop earlier exact duplicates, truncate to 10, and persist the same list. -/
def saveRecentSearchState (st : SessionState) (searchQuery : List Char) : SessionState :=
  if (jsTrim searchQuery).isEmpty then st
  else
    let updated := (searchQuery :: st.recentSearches.filter (fun s => s ≠ searchQuery)).take 10
    { st with recentSearches := updated, storage := some updated }

/-- Embedding of `clearRecentSearches`: empty the in-memory list and remove the
persisted key. -/
def clearRecentSearches (st : SessionState) : SessionState :=
  { st with recentSearches := [], storage := none }

/-- Mapping of one snapshot to a `SearchResult` inside `search`, including the
`||` / `??` defaulting chains of the source and — when a free-text query is
present (truthy) — relevance score (computed on the raw data) and highlighted
title/content (computed on the defaulted fields). -/
def mapDoc (filters : SearchFilters) (now : ℚ) (d : DocSnap) : SearchResult :=
  let data := d.data
  let base : SearchResult :=
    { id := d.id
      title := jsOrStr data.title []
      description := jsOrStr data.description []
      content := jsOrStr data.content (jsOrStr data.text [])
      tags := jsOrArr data.tags []
      authorId := jsOrStr data.authorId []
      authorName := jsOrStr data.authorName (jsOrStr data.userEmail [])
      createdAt := data.createdAtMs
      updatedAt := data.updatedAtMs
      isPublic := data.isPublic.getD true
      imageUrls := jsOrArr data.urls (jsOrArr data.imageUrls [])
      location := data.location
      persons := data.persons
      score := none
      highlightedTitle := none
      highlightedContent := none }
  match filters.searchQuery with
  | some q =>
      if q.isEmpty then base
      else
        { base with
            score := some (calculateScore now data q)
            highlightedTitle := some (highlightText base.title q)
            highlightedContent := some (highlightText base.content q) }
  | none => base

/-- The relevance sort of `search`: stable sort descending by `score || 0`
(model of `newResults.sort((a, b) => (b.score || 0) - (a.score || 0))`). -/
def sortByScoreDesc (l : List SearchResult) : List SearchResult :=
  l.mergeSort (fun a b => (b.score.getD 0) ≤ (a.score.getD 0))

/-- Embedding of `search(filters, isLoadMore)` as a state transition.  The store
round-trip is abstracted by `resp`: `.ok docs` is the snapshot produced by the
query that `buildQuery filters isLoadMore st.lastDoc` denotes, `.error ()` a
store failure.  The function is total: a store failure is caught (logged,
results cleared on a first page, untouched on load-more) and never escapes. -/
def search (st : SessionState) (filters : SearchFilters) (isLoadMore : Bool) (now : ℚ)
    (resp : Except Unit (List DocSnap)) : SessionState :=
  let st1 := if isLoadMore then st
             else { st with isSearching := true, results := [], lastDoc := none }
  match resp with
  | .error _ =>
      let st2 := { st1 with logs := st1.logs ++ [LogEvent.searchFailed] }
      let st3 := if isLoadMore then st2 else { st2 with results := [] }
      if isLoadMore then st3 else { st3 with isSearching := false }
  | .ok docs =>
      let newResults := docs.map (mapDoc filters now)
      let sorted := if truthyStr filters.searchQuery then sortByScoreDesc newResults
                    else newResults
      let st2 :=
        if isLoadMore then { st1 with results := st1.results ++ sorted }
        else
          let stA := { st1 with results := sorted }
          if truthyStr filters.searchQuery then
            saveRecentSearchState stA (filters.searchQuery.getD [])
          else stA
      let st3 := { st2 with
                    hasMore := docs.length == jsOrNat filters.limit 20
                    lastDoc := docs.getLast? }
      let st4 := { st3 with
                    logs := st3.logs ++
                      [LogEvent.searchCompleted filters.searchQuery sorted.length isLoadMore] }
      if isLoadMore then st4 else { st4 with isSearching := false }

/-- Per-file result of the upload pipeline (`UploadResult` interface). -/
structure UploadResult where
  success : Bool
  url : Option String
  error : Option String
  fileName : String
deriving DecidableEq

/-- What the storage backend does with one file: the upload task completes with a
download URL, the upload task invokes the error callback, or the final
`getDownloadURL` call throws. -/
inductive UploadOutcome where
  | ok (url : String)
  | err (msg : String)
  | urlErr (msg : String)
deriving DecidableEq

/-- One input file of a batch together with its backend outcome. -/
structure UploadFile where
  name : String
  outcome : UploadOutcome
deriving DecidableEq

/-- The `UploadResult` that the per-file promise of `uploadFiles` resolves with:
both failure paths resolve (never reject) with `success: false` and the error
message; success resolves with the download URL. -/
def mkResult (f : UploadFile) : UploadResult :=
  match f.outcome with
  | .ok url => { success := true, url := some url, error := none, fileName := f.name }
  | .err m => { success := false, url := none, error := some m, fileName := f.name }
  | .urlErr m => { success := false, url := none, error := some m, fileName := f.name }

/-- One completion event of the concurrent uploads: the promise of file `i`
writes its result at index `i` (`results[index] = result`). -/
def writeStep (files : List UploadFile) (acc : List (Option UploadResult)) (i : Nat) :
    List (Option UploadResult) :=
  match files[i]? with
  | some f => acc.set i (some (mkResult f))
  | none => acc

/-- Result assembly of `uploadFiles`: the concurrent per-file promises write
`results[index] = result` in their completion order.  `order` lists the file
indices in completion order; the accumulator starts as a length-`n` array with
no entry written (`none`). -/
def assembleResults (files : List UploadFile) (order : List Nat) :
    List (Option UploadResult) :=
  order.foldl (writeStep files) (List.replicate files.length none)

/-- Model of `Math.round` on rationals: round half away from zero upwards (JavaScript
`Math.round(x)` equals `⌊x + 1/2⌋`). -/
def jsMathRound (x : ℚ) : Int := ⌊x + 1 / 2⌋

/-- Embedding of `updateOverallProgress`: the arithmetic mean of the per-file
progress percentages currently in the progress map, rounded. -/
def updateOverallProgress (progresses : List ℚ) (fileCount : ℚ) : Int :=
  jsMathRound (progresses.sum / fileCount)

/-- Observable state of the upload hook. -/
structure UploadState where
  isUploading : Bool
  overallProgress : Int
  uploadResults : List (Option UploadResult)
  errorNotices : List String
deriving DecidableEq

/-- Value and final state of one `uploadFiles` run: `returned` is what the batch
promise resolves with (`.error` would be a rejection — the model shows it never
happens for per-file failures). -/
structure UploadRun where
  returned : Except String (List (Option UploadResult))
  final : UploadState

/-- Embedding of `uploadFiles(files)`.  An empty batch returns `[]` without touching
state.  Otherwise state is reset, all files upload concurrently (their completion
order is `order`), each resolving with `mkResult`; after `Promise.all`, the
results are published, `overallProgress` is set to 100 unconditionally, and if
any result failed a single aggregated notice
`"{n}개 파일 업로드 실패: {names}"` is emitted via `onError`. -/
def uploadFiles (st : UploadState) (files : List UploadFile) (order : List Nat) :
    UploadRun :=
  if files.length = 0 then { returned := Except.ok [], final := st }
  else
    let st1 : UploadState :=
      { st with isUploading := true, overallProgress := 0, uploadResults := [] }
    let results := assembleResults files order
    let failures := (results.filterMap id).filter (fun r => !r.success)
    let notice : List String :=
      if 0 < failures.length then
        [toString failures.length ++ "개 파일 업로드 실패: " ++
          String.intercalate ", " (failures.map (fun r => r.fileName))]
      else []
    { returned := Except.ok results
      final := { st1 with
                  uploadResults := results
                  overallProgress := 100
                  errorNotices := st1.errorNotices ++ notice
                  isUploading := false } }

/-- Number of positions of `t` at which the lower-cased query occurs (all positions,
including overlapping ones): the scan advances one character at a time.  This is an
independent definition of "occurrence of Q in T", used to characterise how many
spans `highlightText` marks. -/
def countOccAll (q : List Char) : List Char → Nat
  | [] => 0
  | c :: rest =>
      (if (lowerList q).isPrefixOf (lowerList (c :: rest)) then 1 else 0) + countOccAll q rest

/-- Number of spans the highlighter marks in `t` for query `q`. -/
def markedCount (q t : List Char) : Nat :=
  ((highlightPieces q t).filter (fun p => p.1)).length

/-- The no-blank-entries invariant of the recent-search history: every entry of the
in-memory list and of the persisted list is non-blank. -/
def histInv (st : SessionState) : Prop :=
  (∀ s ∈ st.recentSearches, (jsTrim s).isEmpty = false)
  ∧ (∀ l, st.storage = some l → ∀ s ∈ l, (jsTrim s).isEmpty = false)

/-- A fresh session (initial hook state). -/
def emptySession : SessionState :=
  { results := []
    isSearching := false
    hasMore := false
    lastDoc := none
    recentSearches := []
    storage := none
    logs := [] }

/-- A raw document with every optional field absent, created at time 0. -/
def itemNone : RawData :=
  { title := none
    description := none
    content := none
    text := none
    location := none
    tags := none
    persons := none
    authorId := none
    authorName := none
    userEmail := none
    urls := none
    imageUrls := none
    isPublic := none
    createdAtMs := 0
    updatedAtMs := none }

/-- Ten days after time 0, in milliseconds. -/
def nowTenDays : ℚ := 864000000

/-- A filters value whose only set field is the free-text query `"a"`. -/
def filtersQueryA : SearchFilters :=
  { searchQuery := some ['a']
    tags := none
    author := none
    dateRange := none
    isPublic := none
    hasImages := none
    sortBy := none
    sortOrder := none
    limit := none }

/-- A filters value with no field set. -/
def filtersEmpty : SearchFilters :=
  { filtersQueryA with searchQuery := none }

/-- Initial state of the upload hook. -/
def uploadStateInit : UploadState :=
  { isUploading := false
    overallProgress := 0
    uploadResults := []
    errorNotices := [] }

/-- A two-file batch whose first file fails with a network error and whose second
file succeeds. -/
def filesAB : List UploadFile :=
  [{ name := "a.jpg", outcome := UploadOutcome.err "network error" },
   { name := "b.jpg", outcome := UploadOutcome.ok "https://example.com/b" }]

/-! ### Helper lemmas -/

theorem optLowerStarts_imp_contains (o : Option (List Char)) (q : List Char)
    (h : optLowerStarts o q = true) : optLowerContains o q = true := by
  rcases o with _ | s
  · simp [optLowerStarts] at h
  · simp only [optLowerStarts] at h
    simp only [optLowerContains, strIncludes, decide_eq_true_iff]
    exact List.IsPrefix.isInfix ( List.isPrefixOf_iff_prefix.mp h)

theorem calculateScore_nonneg (now : ℚ) (item : RawData) (q : List Char) :
    0 ≤ calculateScore now item q := by
  unfold calculateScore
  split
  · exact le_rfl
  · dsimp only
    have h7 : ∀ d : ℚ, 0 ≤ (if d < 30 then max 0 (2 - d / 15) else 0) := by
      intro d
      split
      · exact le_max_left 0 _
      · exact le_rfl
    refine add_nonneg ?_ (h7 _)
    split_ifs <;> norm_num

/-! ### Claim theorems -/

/-- C1: for every document and query, `calculateScore` returns 0 on a blank query;
otherwise it is non-negative and equals the additive sum of 10 for a
case-insensitive title match plus an additional 5 for a title prefix match,
5 for a description match, 3 for a content match, 7 for a tag match, 4 for a
location match, 4 for a person match, and — when the document's age in days is
below 30 — the recency bonus `max 0 (2 - ageInDays / 15)`. -/
theorem calculateScore_spec (now : ℚ) (item : RawData) (q : List Char) :
    ((jsTrim q).isEmpty = true → calculateScore now item q = 0)
    ∧ ((jsTrim q).isEmpty = false →
        calculateScore now item q =
          (if optLowerContains item.title (lowerList q) then (10 : ℚ) else 0)
          + (if optLowerStarts item.title (lowerList q) then 5 else 0)
          + (if optLowerContains item.description (lowerList q) then 5 else 0)
          + (if optLowerContains item.content (lowerList q) then 3 else 0)
          + (if anyLowerContains item.tags (lowerList q) then 7 else 0)
          + (if optLowerContains item.location (lowerList q) then 4 else 0)
          + (if anyLowerContains item.persons (lowerList q) then 4 else 0)
          + (if ageInDays now item < 30 then max 0 (2 - ageInDays now item / 15) else 0)
        ∧ 0 ≤ calculateScore now item q) := by
  constructor
  · intro h
    simp [calculateScore, h]
  · intro h
    refine ⟨?_, calculateScore_nonneg now item q⟩
    unfold calculateScore
    rw [if_neg (by simp [h])]
    dsimp only
    have htitle :
        (if optLowerContains item.title (lowerList q) then
            (10 : ℚ) + (if optLowerStarts item.title (lowerList q) then 5 else 0)
          else 0)
        = (if optLowerContains item.title (lowerList q) then (10 : ℚ) else 0)
          + (if optLowerStarts item.title (lowerList q) then 5 else 0) := by
      by_cases hc : optLowerContains item.title (lowerList q) = true
      · simp [hc]
      · have hs : optLowerStarts item.title (lowerList q) = false := by
          cases hb : optLowerStarts item.title (lowerList q)
          · rfl
          · exact absurd (optLowerStarts_imp_contains _ _ hb) hc
        simp [hc, hs]
    rw [htitle]
    simp only [ageInDays]

/-- Witness for C1 at concrete inputs: a whitespace-only query scores 0, and the
score of a fresh unmatched document against the query `"a"` is non-negative. -/
theorem calculateScore_spec_witness :
    calculateScore nowTenDays itemNone [' '] = 0
    ∧ 0 ≤ calculateScore nowTenDays itemNone ['a'] :=
  ⟨(calculateScore_spec nowTenDays itemNone [' ']).1 (by decide),
   ((calculateScore_spec nowTenDays itemNone ['a']).2 (by decide)).2⟩

/-- C8: for a non-blank query and a document none of whose text criteria match,
a document younger than 30 days scores exactly the recency bonus
`max 0 (2 - ageInDays / 15)`, which is strictly positive: the bonus is added
for any non-blank query, not only when some text criterion matched. -/
theorem calculateScore_recency_only (now : ℚ) (item : RawData) (q : List Char)
    (hq : (jsTrim q).isEmpty = false)
    (h1 : optLowerContains item.title (lowerList q) = false)
    (h2 : optLowerContains item.description (lowerList q) = false)
    (h3 : optLowerContains item.content (lowerList q) = false)
    (h4 : anyLowerContains item.tags (lowerList q) = false)
    (h5 : optLowerContains item.location (lowerList q) = false)
    (h6 : anyLowerContains item.persons (lowerList q) = false)
    (hage : ageInDays now item < 30) :
    calculateScore now item q = max 0 (2 - ageInDays now item / 15)
    ∧ 0 < calculateScore now item q := by
  have hxpos : 0 < 2 - ageInDays now item / 15 := by linarith
  have hmain : calculateScore now item q = max 0 (2 - ageInDays now item / 15) := by
    unfold calculateScore
    rw [if_neg (by simp [hq])]
    dsimp only
    rw [h1, h2, h3, h4, h5, h6]
    simp only [Bool.false_eq_true, if_false]
    rw [if_pos (show (now - item.createdAtMs) / (1000 * 60 * 60 * 24) < 30 from hage)]
    rw [show (now - item.createdAtMs) / (1000 * 60 * 60 * 24) = ageInDays now item from rfl]
    ring
  refine ⟨hmain, ?_⟩
  rw [hmain]
  exact lt_of_lt_of_le hxpos (le_max_right 0 _)

/-- Witness for C8: a ten-day-old document with no matching field scores exactly
the (positive) recency bonus against the query `"a"`. -/
theorem calculateScore_recency_only_witness :
    calculateScore nowTenDays itemNone ['a']
      = max 0 (2 - ageInDays nowTenDays itemNone / 15)
    ∧ 0 < calculateScore nowTenDays itemNone ['a'] :=
  calculateScore_recency_only nowTenDays itemNone ['a'] (by decide) (by decide) (by decide)
    (by decide) (by decide) (by decide) (by decide)
    (by norm_num [ageInDays, nowTenDays, itemNone])

theorem count_dedupe_promote (q : List Char) (l : List (List Char)) :
    List.count q ((q :: l.filter (fun s => s ≠ q)).take 10) = 1 := by
  rw [List.take_succ_cons, List.count_cons_self]
  have hnot : q ∉ l.filter (fun s => s ≠ q) := by
    intro hmem
    have := (List.mem_filter.mp hmem).2
    simp at this
  have h0 : List.count q (l.filter (fun s => s ≠ q)) = 0 := List.count_eq_zero.mpr hnot
  have hle := (List.take_sublist 9 (l.filter (fun s => s ≠ q))).count_le q
  omega

theorem saveRecentSearch_eq (st : SessionState) (q : List Char)
    (h : (jsTrim q).isEmpty = false) :
    (saveRecentSearchState st q).recentSearches
      = (q :: st.recentSearches.filter (fun s => s ≠ q)).take 10
    ∧ (saveRecentSearchState st q).storage
      = some ((q :: st.recentSearches.filter (fun s => s ≠ q)).take 10) := by
  unfold saveRecentSearchState
  rw [if_neg (by simp [h])]
  exact ⟨rfl, rfl⟩

/-- C5: after successful free-text searches for Q1, Q2, Q1 the history holds Q1
exactly once, in front; in general `saveRecentSearch` on a non-blank query
prepends the query, removes earlier duplicates, truncates to 10 entries and
persists exactly that list. -/
theorem recentSearch_history_spec (st : SessionState) (q1 q2 : List Char)
    (h1 : (jsTrim q1).isEmpty = false) :
    (List.count q1
        (saveRecentSearchState (saveRecentSearchState (saveRecentSearchState st q1) q2)
          q1).recentSearches = 1
      ∧ (saveRecentSearchState (saveRecentSearchState (saveRecentSearchState st q1) q2)
          q1).recentSearches.head? = some q1)
    ∧ (∀ st' q, (jsTrim q).isEmpty = false →
        (saveRecentSearchState st' q).recentSearches
          = (q :: st'.recentSearches.filter (fun s => s ≠ q)).take 10
        ∧ (saveRecentSearchState st' q).recentSearches.length ≤ 10
        ∧ (saveRecentSearchState st' q).storage
            = some (saveRecentSearchState st' q).recentSearches) := by
  constructor
  · set s2 := saveRecentSearchState (saveRecentSearchState st q1) q2
    obtain ⟨hr, _⟩ := saveRecentSearch_eq s2 q1 h1
    constructor
    · rw [hr]
      exact count_dedupe_promote q1 s2.recentSearches
    · rw [hr, List.take_succ_cons, List.head?_cons]
  · intro st' q hq
    obtain ⟨hr, hs⟩ := saveRecentSearch_eq st' q hq
    refine ⟨hr, ?_, ?_⟩
    · rw [hr]
      exact List.length_take_le 10 _
    · rw [hs, hr]

/-- Witness for C5: searching "a", then "b", then "a" from a fresh session. -/
theorem recentSearch_history_spec_witness :
    List.count ['a']
        (saveRecentSearchState
          (saveRecentSearchState (saveRecentSearchState emptySession ['a']) ['b'])
          ['a']).recentSearches = 1 :=
  ((recentSearch_history_spec emptySession ['a'] ['b'] (by decide)).1).1

theorem histInv_of_fields (st st' : SessionState)
    (h1 : st'.recentSearches = st.recentSearches) (h2 : st'.storage = st.storage)
    (hinv : histInv st) : histInv st' := by
  constructor
  · rw [h1]
    exact hinv.1
  · rw [h2]
    exact hinv.2

theorem histInv_save (st : SessionState) (hinv : histInv st) (q : List Char) :
    histInv (saveRecentSearchState st q) := by
  unfold saveRecentSearchState
  split
  · exact hinv
  · rename_i hq
    have hq' : (jsTrim q).isEmpty = false := by
      cases h : (jsTrim q).isEmpty
      · rfl
      · exact absurd h hq
    have hupd : ∀ s ∈ (q :: st.recentSearches.filter (fun s => s ≠ q)).take 10,
        (jsTrim s).isEmpty = false := by
      intro s hs
      rcases List.mem_cons.mp (List.mem_of_mem_take hs) with rfl | hmem
      · exact hq'
      · exact hinv.1 s ((List.mem_filter.mp hmem).1)
    constructor
    · exact hupd
    · intro l hl
      cases hl
      exact hupd

theorem saveRecentSearch_other_fields (st : SessionState) (q : List Char) :
    (saveRecentSearchState st q).results = st.results
    ∧ (saveRecentSearchState st q).isSearching = st.isSearching
    ∧ (saveRecentSearchState st q).hasMore = st.hasMore
    ∧ (saveRecentSearchState st q).lastDoc = st.lastDoc
    ∧ (saveRecentSearchState st q).logs = st.logs := by
  unfold saveRecentSearchState
  split <;> exact ⟨rfl, rfl, rfl, rfl, rfl⟩

theorem search_recent_fields (st : SessionState) (filters : SearchFilters)
    (isLoadMore : Bool) (now : ℚ) (resp : Except Unit (List DocSnap)) :
    ((search st filters isLoadMore now resp).recentSearches = st.recentSearches
      ∧ (search st filters isLoadMore now resp).storage = st.storage)
    ∨ (∃ stA, stA.recentSearches = st.recentSearches ∧ stA.storage = st.storage
        ∧ (search st filters isLoadMore now resp).recentSearches
            = (saveRecentSearchState stA (filters.searchQuery.getD [])).recentSearches
        ∧ (search st filters isLoadMore now resp).storage
            = (saveRecentSearchState stA (filters.searchQuery.getD [])).storage) := by
  unfold search
  rcases resp with _ | docs
  · left
    cases isLoadMore <;> exact ⟨rfl, rfl⟩
  · cases isLoadMore
    · cases ht : truthyStr filters.searchQuery
      · left
        constructor <;> simp [ht]
      · right
        refine Exists.intro
          { st with
              isSearching := true
              lastDoc := none
              results := sortByScoreDesc (List.map (mapDoc filters now) docs) }
          ⟨rfl, rfl, ?_, ?_⟩ <;> simp [ht]
    · left
      exact ⟨rfl, rfl⟩

/-- C10: every entry of the recent-search history (in memory and persisted) is
non-blank: `saveRecentSearch` is a no-op on a blank argument and preserves the
invariant otherwise, `search` preserves it, and `clearRecentSearches` empties
both stores. -/
theorem recentSearch_nonblank_invariant (st : SessionState) (hinv : histInv st) :
    (∀ q, (jsTrim q).isEmpty = true → saveRecentSearchState st q = st)
    ∧ (∀ q, histInv (saveRecentSearchState st q))
    ∧ (∀ filters isLoadMore now resp, histInv (search st filters isLoadMore now resp))
    ∧ histInv (clearRecentSearches st)
    ∧ (clearRecentSearches st).recentSearches = []
    ∧ (clearRecentSearches st).storage = none := by
  refine ⟨?_, fun q => histInv_save st hinv q, ?_, ?_, rfl, rfl⟩
  · intro q hq
    unfold saveRecentSearchState
    rw [if_pos (by simp [hq])]
  · intro filters isLoadMore now resp
    rcases search_recent_fields st filters isLoadMore now resp with ⟨h1, h2⟩ |
      ⟨stA, ha1, ha2, h1, h2⟩
    · exact histInv_of_fields st _ h1 h2 hinv
    · have hA : histInv stA := histInv_of_fields st stA ha1 ha2 hinv
      exact histInv_of_fields (saveRecentSearchState stA (filters.searchQuery.getD []))
        _ h1 h2 (histInv_save stA hA _)
  · exact ⟨fun s hs => absurd hs (List.not_mem_nil s), fun l hl => by cases hl⟩

/-- Witness for C10 at the fresh session, whose history is empty hence non-blank. -/
theorem recentSearch_nonblank_invariant_witness :
    (clearRecentSearches emptySession).recentSearches = []
    ∧ (clearRecentSearches emptySession).storage = none :=
  ⟨(recentSearch_nonblank_invariant emptySession
      ⟨fun s hs => absurd hs (List.not_mem_nil s), fun l hl => by cases hl⟩).2.2.2.2.1,
   (recentSearch_nonblank_invariant emptySession
      ⟨fun s hs => absurd hs (List.not_mem_nil s), fun l hl => by cases hl⟩).2.2.2.2.2⟩

/-- C7: a store failure inside `search` is caught and logged, never propagated
(the embedding is a total function on the failure response): a first-page search
ends with an empty result list and `isSearching = false`; a load-more call
changes nothing except the failure log entry — in particular the previously held
results are left intact. -/
theorem search_store_failure (st : SessionState) (filters : SearchFilters) (now : ℚ) :
    (search st filters false now (Except.error ())).results = []
    ∧ (search st filters false now (Except.error ())).isSearching = false
    ∧ (search st filters false now (Except.error ())).logs
        = st.logs ++ [LogEvent.searchFailed]
    ∧ (search st filters true now (Except.error ()))
        = { st with logs := st.logs ++ [LogEvent.searchFailed] } := by
  refine ⟨?_, ?_, ?_, ?_⟩ <;> simp [search]

/-- C2 counterexample: from a fresh session (no pagination cursor) with the
free-text query `"a"` and an empty store response, a first `search` records the
query in the recent-search history while `loadMore` (`search` with
`isLoadMore = true`) does not — the two calls are observably different. -/
theorem loadMore_noCursor_differs :
    (search emptySession filtersQueryA true 0 (Except.ok [])).recentSearches
    ≠ (search emptySession filtersQueryA false 0 (Except.ok [])).recentSearches := by
  simp [search, emptySession, filtersQueryA, truthyStr, sortByScoreDesc,
    saveRecentSearchState, jsTrim]

/-- C2 amended: `loadMore` with no pagination cursor issues exactly the store query
of a first `search` (no start-after constraint either way), and — given the same
store response — yields the same final cursor and `hasMore` flag, and the same
final result list provided the session held no results; but unlike a first
search it leaves `isSearching` untouched and does not update the recent-query
history. -/
theorem loadMore_noCursor_partial_equiv (st : SessionState) (filters : SearchFilters)
    (now : ℚ) (resp : Except Unit (List DocSnap)) (hcur : st.lastDoc = none) :
    buildQuery filters true st.lastDoc = buildQuery filters false st.lastDoc
    ∧ (search st filters true now resp).lastDoc
        = (search st filters false now resp).lastDoc
    ∧ (search st filters true now resp).hasMore
        = (search st filters false now resp).hasMore
    ∧ (st.results = [] →
        (search st filters true now resp).results
          = (search st filters false now resp).results)
    ∧ (search st filters true now resp).recentSearches = st.recentSearches
    ∧ (search st filters true now resp).isSearching = st.isSearching := by
  rw [hcur]
  refine ⟨by simp [buildQuery], ?_⟩
  rcases resp with _ | docs
  · refine ⟨?_, ?_, ?_, ?_, ?_⟩ <;> simp [search, hcur]
  · cases ht : truthyStr filters.searchQuery
    · refine ⟨?_, ?_, ?_, ?_, ?_⟩ <;> simp [search, ht]
    · refine ⟨?_, ?_, ?_, ?_, ?_⟩ <;>
        simp [search, ht, saveRecentSearch_other_fields]

/-- Witness for the amended C2 at a fresh session: the store query is the same
with and without the continuation flag when no cursor is held. -/
theorem loadMore_noCursor_partial_equiv_witness :
    buildQuery filtersQueryA true emptySession.lastDoc
      = buildQuery filtersQueryA false emptySession.lastDoc :=
  (loadMore_noCursor_partial_equiv emptySession filtersQueryA 0 (Except.ok []) rfl).1

/-- C4: `buildQuery` emits exactly the constraint sequence the specification
describes — public-only on a free-text query, tags/author/date-range/visibility/
has-media constraints when the corresponding filter is set, always the orderBy
(defaults `createdAt`/`desc`), start-after only on a continuation with a held
cursor, and a final limit defaulting to 20 — provided the page size, when
present, is positive (the spec's data model: "page size (positive integer,
default 20)"). -/
theorem buildQuery_matches_spec (filters : SearchFilters) (b : Bool)
    (lastDoc : Option DocSnap) (hlim : ∀ n, filters.limit = some n → 0 < n) :
    buildQuery filters b lastDoc = specBuildQuery filters b lastDoc := by
  have h : jsOrNat filters.limit 20 = filters.limit.getD 20 := by
    cases hfl : filters.limit with
    | none => rfl
    | some n =>
        have hn := hlim n hfl
        simp only [jsOrNat, Option.getD_some]
        rw [if_neg (by omega)]
  simp only [buildQuery, specBuildQuery, h]

/-- Witness for C4 with no page size set (default 20 applies). -/
theorem buildQuery_matches_spec_witness :
    buildQuery filtersQueryA false none = specBuildQuery filtersQueryA false none :=
  buildQuery_matches_spec filtersQueryA false none (fun n h => by
    simp [filtersQueryA] at h)

theorem writeStep_length (files : List UploadFile) (acc : List (Option UploadResult))
    (i : Nat) : (writeStep files acc i).length = acc.length := by
  unfold writeStep
  cases files[i]? <;> simp [List.length_set]

theorem foldl_writeStep_length (files : List UploadFile) (order : List Nat) :
    ∀ acc, (order.foldl (writeStep files) acc).length = acc.length := by
  induction order with
  | nil => intro acc; rfl
  | cons i rest ih =>
      intro acc
      rw [List.foldl_cons, ih, writeStep_length]

theorem foldl_writeStep_getElem (files : List UploadFile) (order : List Nat) :
    ∀ (acc : List (Option UploadResult)) (j : Nat) (f : UploadFile),
      files[j]? = some f → j < acc.length →
      (order.foldl (writeStep files) acc)[j]?
        = if j ∈ order then some (some (mkResult f)) else acc[j]? := by
  induction order with
  | nil =>
      intro acc j f hf hj
      simp
  | cons i rest ih =>
      intro acc j f hf hj
      rw [List.foldl_cons,
        ih (writeStep files acc i) j f hf (by rw [writeStep_length]; exact hj)]
      by_cases hji : j = i
      · subst hji
        have hset : (writeStep files acc j)[j]? = some (some (mkResult f)) := by
          unfold writeStep
          rw [hf]
          exact List.getElem?_set_self hj
        by_cases hjr : j ∈ rest <;> simp [hjr, hset, List.mem_cons]
      · have hset : (writeStep files acc i)[j]? = acc[j]? := by
          unfold writeStep
          cases files[i]? <;>
            simp [List.getElem?_set_ne (fun h => hji h.symm)]
        by_cases hjr : j ∈ rest <;> simp [hjr, hset, List.mem_cons, hji]

theorem assembleResults_perm (files : List UploadFile) (order : List Nat)
    (hperm : order.Perm (List.range files.length)) :
    assembleResults files order = files.map (fun f => some (mkResult f)) := by
  apply List.ext_getElem?
  intro j
  by_cases hj : j < files.length
  · have hf : files[j]? = some files[j] := List.getElem?_eq_getElem hj
    unfold assembleResults
    rw [foldl_writeStep_getElem files order _ j files[j] hf
      (by rw [List.length_replicate]; exact hj)]
    have hmem : j ∈ order := hperm.mem_iff.mpr (List.mem_range.mpr hj)
    rw [if_pos hmem, List.getElem?_map, hf]
    rfl
  · have h1 : (assembleResults files order).length = files.length := by
      unfold assembleResults
      rw [foldl_writeStep_length, List.length_replicate]
    rw [List.getElem?_eq_none (by omega : (assembleResults files order).length ≤ j),
      List.getElem?_eq_none (by simp [List.length_map]; omega)]

theorem mkResult_fileName (f : UploadFile) : (mkResult f).fileName = f.name := by
  cases f with
  | mk name outcome => cases outcome <;> rfl

theorem failures_from_files (files : List UploadFile) (order : List Nat)
    (hperm : order.Perm (List.range files.length)) :
    ((assembleResults files order).filterMap id).filter (fun r => !r.success)
      = (files.filter (fun f => !(mkResult f).success)).map mkResult := by
  rw [assembleResults_perm files order hperm]
  have h1 : files.map (fun f => some (mkResult f)) = (files.map mkResult).map some := by
    rw [List.map_map]
    rfl
  rw [h1]
  have h2 : ((files.map mkResult).map some).filterMap id = files.map mkResult := by
    rw [List.filterMap_map]
    exact List.filterMap_some _
  rw [h2, List.filter_map]
  rfl

/-- C6: for a batch of files, regardless of the completion order of the concurrent
uploads (any permutation), the batch promise resolves — never rejects — with one
result per input file aligned by original index; a failing file `k` yields entry
`k` with `success = false` and that file's error message while every sibling's
entry depends only on its own file; and the failures are summarised in a single
aggregated error notification listing the failed file names. -/
theorem uploadFiles_index_aligned (st : UploadState) (files : List UploadFile)
    (order : List Nat) (hperm : order.Perm (List.range files.length)) :
    (uploadFiles st files order).returned
      = Except.ok (files.map (fun f => some (mkResult f)))
    ∧ (∀ (j : Nat) (g : UploadFile), files[j]? = some g →
        (assembleResults files order)[j]? = some (some (mkResult g)))
    ∧ (∀ (k : Nat) (f : UploadFile) (m : String),
        files[k]? = some f → f.outcome = UploadOutcome.err m →
        (assembleResults files order)[k]?
          = some (some ({ success := false, url := none, error := some m,
                          fileName := f.name } : UploadResult)))
    ∧ (uploadFiles st files order).final.errorNotices
        = st.errorNotices ++
          (if (files.filter (fun f => !(mkResult f).success)).length = 0 then []
           else [toString (files.filter (fun f => !(mkResult f).success)).length
                  ++ "개 파일 업로드 실패: "
                  ++ String.intercalate ", "
                      ((files.filter (fun f => !(mkResult f).success)).map
                        (fun f => f.name))]) := by
  have hassem := assembleResults_perm files order hperm
  have hget : ∀ (j : Nat) (g : UploadFile), files[j]? = some g →
      (assembleResults files order)[j]? = some (some (mkResult g)) := by
    intro j g hg
    rw [hassem, List.getElem?_map, hg]
    rfl
  refine ⟨?_, hget, ?_, ?_⟩
  · unfold uploadFiles
    split
    · rename_i hlen
      rw [List.length_eq_zero.mp hlen]
      rfl
    · rw [hassem]
  · intro k f m hf hm
    have := hget k f hf
    rw [this]
    unfold mkResult
    rw [hm]
  · unfold uploadFiles
    split
    · rename_i hlen
      rw [List.length_eq_zero.mp hlen]
      simp
    · dsimp only
      rw [failures_from_files files order hperm]
      have hlen2 : ((files.filter (fun f => !(mkResult f).success)).map mkResult).length
          = (files.filter (fun f => !(mkResult f).success)).length :=
        List.length_map _ _
      have hnames : ((files.filter (fun f => !(mkResult f).success)).map mkResult).map
            (fun r => r.fileName)
          = (files.filter (fun f => !(mkResult f).success)).map (fun f => f.name) := by
        rw [List.map_map]
        exact List.map_congr_left (fun f _ => mkResult_fileName f)
      by_cases hzero : (files.filter (fun f => !(mkResult f).success)).length = 0
      · rw [if_pos hzero]
        simp [hlen2, hzero]
      · rw [if_neg hzero]
        simp only [hlen2, hnames]
        rw [if_pos (by omega)]

/-- Witness for C6: a two-file batch, first file failing, completing in reverse
order. -/
theorem uploadFiles_index_aligned_witness :
    (uploadFiles uploadStateInit filesAB [1, 0]).returned
      = Except.ok (filesAB.map (fun f => some (mkResult f))) :=
  (uploadFiles_index_aligned uploadStateInit filesAB [1, 0] (by decide)).1

/-- C9: when `uploadFiles` completes normally on a non-empty batch,
`overallProgress` is set to exactly 100 whatever the per-file outcomes and
completion order — overriding the rounded arithmetic-mean aggregation
(`updateOverallProgress`) used while uploads are in flight, which for example
reports 0 for all-zero in-flight progress. -/
theorem uploadFiles_overall_progress (st : UploadState) (files : List UploadFile)
    (order : List Nat) (h : files ≠ []) :
    (uploadFiles st files order).final.overallProgress = 100
    ∧ updateOverallProgress (List.replicate files.length 0) (files.length : ℚ) ≠ 100 := by
  constructor
  · unfold uploadFiles
    rw [if_neg (by simp [h])]
  · have hsum : (List.replicate files.length (0 : ℚ)).sum = 0 := by
      simp
    unfold updateOverallProgress jsMathRound
    rw [hsum]
    norm_num

/-- Witness for C9 at the two-file batch. -/
theorem uploadFiles_overall_progress_witness :
    (uploadFiles uploadStateInit filesAB [1, 0]).final.overallProgress = 100 :=
  (uploadFiles_overall_progress uploadStateInit filesAB [1, 0] (by decide)).1

theorem nonblank_ne_nil (q : List Char) (h : (jsTrim q).isEmpty = false) : q ≠ [] := by
  intro hq
  subst hq
  simp [jsTrim] at h

theorem length_lowerList (s : List Char) : (lowerList s).length = s.length :=
  List.length_map s Char.toLower

theorem lowerList_take (n : Nat) (s : List Char) :
    lowerList (s.take n) = (lowerList s).take n := by
  simp [lowerList, List.map_take]

theorem replaceAllCI_eq_renderPieces (q : List Char) :
    ∀ t, replaceAllCI q t = renderPieces (highlightPieces q t) := by
  intro t
  induction t using highlightPieces.induct q with
  | case1 => simp [replaceAllCI, highlightPieces, renderPieces]
  | case2 c rest hm ih =>
      simp only [replaceAllCI, highlightPieces, hm, if_true]
      rw [ih]
      simp [renderPieces, renderPiece]
  | case3 c rest hm ih =>
      simp only [replaceAllCI, highlightPieces, hm, Bool.false_eq_true, if_false]
      rw [ih]
      simp [renderPieces, renderPiece]

theorem highlightPieces_flatten (q : List Char) (hq : q ≠ []) :
    ∀ t, ((highlightPieces q t).map (fun p => p.2)).flatten = t := by
  intro t
  induction t using highlightPieces.induct q with
  | case1 => simp [highlightPieces]
  | case2 c rest hm ih =>
      simp only [highlightPieces, hm, if_true, List.map_cons, List.flatten_cons, ih]
      cases q with
      | nil => exact absurd rfl hq
      | cons a as =>
          simp only [List.length_cons, List.take_succ_cons, Nat.add_sub_cancel,
            List.cons_append]
          rw [List.take_append_drop]
  | case3 c rest hm ih =>
      simp only [highlightPieces, hm, Bool.false_eq_true, if_false, List.map_cons,
        List.flatten_cons, ih]
      rfl

theorem highlightPieces_marked (q : List Char) :
    ∀ t, ∀ p ∈ highlightPieces q t, p.1 = true →
      lowerList p.2 = lowerList q ∧ p.2.length = q.length := by
  intro t
  induction t using highlightPieces.induct q with
  | case1 =>
      intro p hp
      simp [highlightPieces] at hp
  | case2 c rest hm ih =>
      intro p hp htrue
      simp only [highlightPieces, hm, if_true, List.mem_cons] at hp
      rcases hp with rfl | hp
      · have hpre := List.isPrefixOf_iff_prefix.mp hm
        have htake := List.prefix_iff_eq_take.mp hpre
        rw [length_lowerList] at htake
        have hlen := hpre.length_le
        rw [length_lowerList, length_lowerList] at hlen
        constructor
        · rw [lowerList_take, ← htake]
        · simp only [List.length_take, List.length_cons]
          simp only [List.length_cons] at hlen
          omega
      · exact ih p hp htrue
  | case3 c rest hm ih =>
      intro p hp htrue
      simp only [highlightPieces, hm, Bool.false_eq_true, if_false, List.mem_cons] at hp
      rcases hp with rfl | hp
      · simp at htrue
      · exact ih p hp htrue

theorem highlightPieces_marked_iff (q : List Char) (hq : q ≠ []) :
    ∀ t, ((lowerList q <:+: lowerList t) ↔ ∃ p ∈ highlightPieces q t, p.1 = true) := by
  intro t
  induction t using highlightPieces.induct q with
  | case1 =>
      constructor
      · intro h
        have h0 : lowerList q = [] := List.eq_nil_of_infix_nil h
        exact absurd (by simpa [lowerList] using h0) hq
      · intro h
        simp [highlightPieces] at h
  | case2 c rest hm ih =>
      constructor
      · intro _
        exact ⟨(true, (c :: rest).take q.length), by simp [highlightPieces, hm], rfl⟩
      · intro _
        exact List.IsPrefix.isInfix ( List.isPrefixOf_iff_prefix.mp hm)
  | case3 c rest hm ih =>
      constructor
      · intro hinf
        have hinf' : lowerList q <:+: c.toLower :: lowerList rest := hinf
        rcases List.infix_cons_iff.mp hinf' with hpre | hinf2
        · exact absurd ( List.isPrefixOf_iff_prefix.mpr hpre) hm
        · obtain ⟨p, hp, ht⟩ := ih.mp hinf2
          exact ⟨p, by simp only [highlightPieces, hm, Bool.false_eq_true, if_false, List.mem_cons];
                       exact Or.inr hp, ht⟩
      · intro h
        obtain ⟨p, hp, ht⟩ := h
        simp only [highlightPieces, hm, Bool.false_eq_true, if_false, List.mem_cons] at hp
        rcases hp with rfl | hp
        · simp at ht
        · have hrest := ih.mpr ⟨p, hp, ht⟩
          exact List.infix_cons_iff.mpr (Or.inr hrest)

theorem countOccAll_drop_le (q : List Char) :
    ∀ (l : List Char) (m : Nat), countOccAll q (l.drop m) ≤ countOccAll q l := by
  intro l
  induction l with
  | nil =>
      intro m
      simp
  | cons c rest ih =>
      intro m
      cases m with
      | zero => exact le_rfl
      | succ m' =>
          calc countOccAll q ((c :: rest).drop (m' + 1)) = countOccAll q (rest.drop m') :=
                rfl
            _ ≤ countOccAll q rest := ih m'
            _ ≤ countOccAll q (c :: rest) := by
                simp only [countOccAll]
                omega

theorem markedCount_le_countOccAll (q : List Char) :
    ∀ t, markedCount q t ≤ countOccAll q t := by
  intro t
  induction t using highlightPieces.induct q with
  | case1 => simp [markedCount, highlightPieces, countOccAll]
  | case2 c rest hm ih =>
      have h1 : markedCount q (c :: rest)
          = markedCount q (rest.drop (q.length - 1)) + 1 := by
        simp [markedCount, highlightPieces, hm]
      have h2 : countOccAll q (c :: rest) = 1 + countOccAll q rest := by
        simp [countOccAll, hm]
      have h3 := countOccAll_drop_le q rest (q.length - 1)
      omega
  | case3 c rest hm ih =>
      have h1 : markedCount q (c :: rest) = markedCount q rest := by
        simp [markedCount, highlightPieces, hm]
      have h2 : countOccAll q (c :: rest) = countOccAll q rest := by
        simp [countOccAll, hm]
      omega

theorem one_le_markedCount (q : List Char) :
    ∀ t, 1 ≤ countOccAll q t → 1 ≤ markedCount q t := by
  intro t
  induction t using highlightPieces.induct q with
  | case1 =>
      intro h
      simp [countOccAll] at h
  | case2 c rest hm ih =>
      intro _
      simp [markedCount, highlightPieces, hm]
  | case3 c rest hm ih =>
      intro h
      have h' : 1 ≤ countOccAll q rest := by
        simpa [countOccAll, hm] using h
      have := ih h'
      simpa [markedCount, highlightPieces, hm] using this

/-- C3: `highlightText` returns the text unchanged on a blank query; on a non-blank
query it renders the match/non-match decomposition of the text: stripping the
markers recovers the text exactly (original casing), every marked span is a
case-insensitive occurrence of the literal query with the query's length, a span
is marked iff the lower-cased query occurs in the lower-cased text, and a text
containing exactly one occurrence position gets exactly one marked span. -/
theorem highlightText_spec (t q : List Char) :
    ((jsTrim q).isEmpty = true → highlightText t q = t)
    ∧ ((jsTrim q).isEmpty = false →
        highlightText t q = renderPieces (highlightPieces q t)
        ∧ ((highlightPieces q t).map (fun p => p.2)).flatten = t
        ∧ (∀ p ∈ highlightPieces q t, p.1 = true →
            lowerList p.2 = lowerList q ∧ p.2.length = q.length)
        ∧ ((lowerList q <:+: lowerList t) ↔ ∃ p ∈ highlightPieces q t, p.1 = true)
        ∧ (countOccAll q t = 1 → markedCount q t = 1)) := by
  constructor
  · intro h
    simp [highlightText, h]
  · intro h
    have hq := nonblank_ne_nil q h
    refine ⟨?_, highlightPieces_flatten q hq t, highlightPieces_marked q t,
      highlightPieces_marked_iff q hq t, ?_⟩
    · rw [highlightText, if_neg (by simp [h])]
      exact replaceAllCI_eq_renderPieces q t
    · intro h1
      have hle := markedCount_le_countOccAll q t
      have hge := one_le_markedCount q t (by omega)
      omega

/-- Witness for C3: blank-query identity on a sample text, and the
exactly-one-occurrence instance for query "aBc" in "xAbCy". -/
theorem highlightText_spec_witness :
    highlightText ['x', 'A', 'b', 'C', 'y'] [' '] = ['x', 'A', 'b', 'C', 'y']
    ∧ markedCount ['a', 'B', 'c'] ['x', 'A', 'b', 'C', 'y'] = 1 :=
  ⟨(highlightText_spec ['x', 'A', 'b', 'C', 'y'] [' ']).1 (by decide),
   ((highlightText_spec ['x', 'A', 'b', 'C', 'y'] ['a', 'B', 'c']).2
      (by decide)).2.2.2.2 (by decide)⟩

end Jdx
